import Mathlib

/-!
Verification development for the Estimate repository (job-processing
pipeline in pages/api/process-job.js, plus lib/estimateConfig.js).

The JavaScript source is shallowly embedded: IEEE doubles are idealized as
exact rationals (all numbers flowing through the pipeline come from JSON or
database numeric columns, hence are finite decimals), JS strings are Lean
strings, absent or null values are Option, and database/network effects are
passed in explicitly as data.
-/

namespace Estimate

/-! ## Numeric model

`round2` transcribes the source helper
`Math.round((Number(n) + Number.EPSILON) * 100) / 100`.
`Number.EPSILON` is 2^-52; `Math.round` rounds half toward positive
infinity, i.e. `Math.round x = Int.floor (x + 1/2)`.
-/

/-- The value of `Number.EPSILON` (2^-52), kept exactly as a rational. -/
def epsJS : ℚ := 1 / 2 ^ 52

/-- JS `Math.round`: round half toward positive infinity. -/
def jsRound (q : ℚ) : ℤ := ⌊q + 1 / 2⌋

/-- Transcription of the source helper `round2`:
`Math.round((Number(n) + Number.EPSILON) * 100) / 100`. -/
def round2 (n : ℚ) : ℚ := ((jsRound ((n + epsJS) * 100) : ℤ) : ℚ) / 100

/-- Spec-side definition: rounding to 2 decimal places, half-up, on a cents
boundary, with no epsilon adjustment.  Used to compare the code helper
`round2` against the wording of the specification. -/
def roundHalfUpCents (q : ℚ) : ℚ := ((⌊q * 100 + 1 / 2⌋ : ℤ) : ℚ) / 100

/-- Adding a small nonnegative amount below 1 to an integer does not change
its floor. -/
theorem floor_int_add_small (k : ℤ) (d : ℚ) (h0 : 0 ≤ d) (h1 : d < 1) :
    ⌊(k : ℚ) + d⌋ = k := by
  rw [Int.floor_eq_iff]
  constructor
  · linarith
  · linarith

/-- The output of `round2` is always an exact number of cents. -/
theorem round2_cents (q : ℚ) : ∃ k : ℤ, round2 q = (k : ℚ) / 100 :=
  ⟨jsRound ((q + epsJS) * 100), rfl⟩

/-- `round2` is the identity on exact cent values. -/
theorem round2_intDiv (k : ℤ) : round2 ((k : ℚ) / 100) = (k : ℚ) / 100 := by
  unfold round2 jsRound epsJS
  have h : ((k : ℚ) / 100 + 1 / 2 ^ 52) * 100 + 1 / 2
      = (k : ℚ) + (100 / 2 ^ 52 + 1 / 2) := by ring
  rw [h, floor_int_add_small k _ (by norm_num) (by norm_num)]

/-- On inputs that are exact multiples of 10^-9 (in particular any product
of two cent-valued quantities), the code helper `round2` agrees with plain
half-up rounding at the cents boundary: the epsilon fudge term never crosses
an integer boundary at this granularity. -/
theorem round2_eq_roundHalfUpCents (q : ℚ) (h : ∃ m : ℤ, q = (m : ℚ) / 10 ^ 9) :
    round2 q = roundHalfUpCents q := by
  obtain ⟨m, rfl⟩ := h
  unfold round2 roundHalfUpCents jsRound epsJS
  -- x = (200 m + 10^9) / (2 * 10^9);  show ⌊x + δ⌋ = ⌊x⌋ for δ = 100/2^52
  have hx : ((m : ℚ) / 10 ^ 9) * 100 + 1 / 2
      = ((200 * m + 10 ^ 9 : ℤ) : ℚ) / (2 * 10 ^ 9) := by push_cast; ring
  have hd : ((m : ℚ) / 10 ^ 9 + 1 / 2 ^ 52) * 100 + 1 / 2
      = ((200 * m + 10 ^ 9 : ℤ) : ℚ) / (2 * 10 ^ 9) + 100 / 2 ^ 52 := by
    push_cast; ring
  rw [hx, hd]
  set n : ℤ := 200 * m + 10 ^ 9 with hn
  set x : ℚ := (n : ℚ) / (2 * 10 ^ 9) with hxdef
  suffices hkey : ⌊x + 100 / 2 ^ 52⌋ = ⌊x⌋ by rw [hkey]
  have hfl : (⌊x⌋ : ℚ) ≤ x := Int.floor_le x
  have hlt : x < (⌊x⌋ : ℚ) + 1 := Int.lt_floor_add_one x
  -- integer gap: n + 1 ≤ (2*10^9) * (⌊x⌋ + 1)
  have hgap : (n : ℚ) + 1 ≤ (2 * 10 ^ 9 : ℚ) * ((⌊x⌋ : ℚ) + 1) := by
    have h1 : (n : ℚ) < (2 * 10 ^ 9 : ℚ) * ((⌊x⌋ : ℚ) + 1) := by
      have := hlt
      rw [hxdef] at this
      have h2 : (0 : ℚ) < 2 * 10 ^ 9 := by norm_num
      calc (n : ℚ) = (n : ℚ) / (2 * 10 ^ 9) * (2 * 10 ^ 9) := by field_simp
        _ < ((⌊x⌋ : ℚ) + 1) * (2 * 10 ^ 9) := by
            exact mul_lt_mul_of_pos_right this h2
        _ = (2 * 10 ^ 9 : ℚ) * ((⌊x⌋ : ℚ) + 1) := by ring
    have h3 : n < 2 * 10 ^ 9 * (⌊x⌋ + 1) := by exact_mod_cast h1
    have h4 : n + 1 ≤ 2 * 10 ^ 9 * (⌊x⌋ + 1) := h3
    exact_mod_cast h4
  rw [Int.floor_eq_iff]
  constructor
  · calc ((⌊x⌋ : ℤ) : ℚ) ≤ x := hfl
      _ ≤ x + 100 / 2 ^ 52 := by norm_num
  · have hxle : x ≤ (⌊x⌋ : ℚ) + 1 - 1 / (2 * 10 ^ 9) := by
      rw [hxdef]
      rw [div_le_iff₀ (by norm_num : (0:ℚ) < 2 * 10 ^ 9)]
      have : ((⌊x⌋ : ℚ) + 1 - 1 / (2 * 10 ^ 9)) * (2 * 10 ^ 9)
          = (2 * 10 ^ 9 : ℚ) * ((⌊x⌋ : ℚ) + 1) - 1 := by field_simp; ring
      rw [this]
      linarith
    have hsmall : (100 : ℚ) / 2 ^ 52 < 1 / (2 * 10 ^ 9) := by norm_num
    linarith

/-! ## JS string model

Character classes of the regular expressions used in the source
(`\w`, `\s`, the literal hyphen), the ASCII fragment of
`toLowerCase`/`toUpperCase`, `trim`, `includes`, and the decimal fragment
of the `Number` builtin.
-/

/-- JS regex `\w` (no unicode flag in the source): `[A-Za-z0-9_]`. -/
def jsWordChar (c : Char) : Bool :=
  decide (97 ≤ c.toNat ∧ c.toNat ≤ 122) || decide (65 ≤ c.toNat ∧ c.toNat ≤ 90) ||
  decide (48 ≤ c.toNat ∧ c.toNat ≤ 57) || decide (c = '_')

/-- The ECMAScript WhiteSpace and LineTerminator characters matched by
regex `\s` and trimmed by `String.prototype.trim`. -/
def jsSpaceChars : List Char :=
  [' ', '\t', '\n', '\r', Char.ofNat 11, Char.ofNat 12, Char.ofNat 0xA0,
   Char.ofNat 0x1680, Char.ofNat 0x2000, Char.ofNat 0x2001, Char.ofNat 0x2002,
   Char.ofNat 0x2003, Char.ofNat 0x2004, Char.ofNat 0x2005, Char.ofNat 0x2006,
   Char.ofNat 0x2007, Char.ofNat 0x2008, Char.ofNat 0x2009, Char.ofNat 0x200A,
   Char.ofNat 0x2028, Char.ofNat 0x2029, Char.ofNat 0x202F, Char.ofNat 0x205F,
   Char.ofNat 0x3000, Char.ofNat 0xFEFF]

/-- Membership in the JS whitespace class `\s`. -/
def jsSpaceChar (c : Char) : Bool := jsSpaceChars.contains c

/-- The ASCII fragment of JS `toLowerCase` (non-ASCII letters are kept as
they are; the proofs below never depend on how letters are mapped, only on
non-letters being fixed). -/
def jsLowerChar (c : Char) : Char :=
  if 65 ≤ c.toNat ∧ c.toNat ≤ 90 then Char.ofNat (c.toNat + 32) else c

/-- The ASCII fragment of JS `toUpperCase`. -/
def jsUpperChar (c : Char) : Char :=
  if 97 ≤ c.toNat ∧ c.toNat ≤ 122 then Char.ofNat (c.toNat - 32) else c

/-- JS `String.prototype.trim` on a character list: drop JS whitespace from
both ends. -/
def jsTrimChars (l : List Char) : List Char :=
  ((l.dropWhile jsSpaceChar).reverse.dropWhile jsSpaceChar).reverse

/-- JS `String.prototype.trim`. -/
def jsTrimString (s : String) : String := String.mk (jsTrimChars s.data)

/-- JS `toLowerCase` on a whole string (ASCII fragment). -/
def jsToLower (s : String) : String := String.mk (s.data.map jsLowerChar)

/-- JS `toUpperCase` on a whole string (ASCII fragment). -/
def jsToUpper (s : String) : String := String.mk (s.data.map jsUpperChar)

/-- One character step of `.replace(/[^\w\s-]/g, " ")` from `normalize`. -/
def replaceNonWordChar (c : Char) : Char :=
  if jsWordChar c || jsSpaceChar c || c = '-' then c else ' '

/-- `.replace(/\s+/g, " ")`: every maximal run of JS whitespace becomes one
space.  The boolean argument records whether the previous character was
whitespace. -/
def squashAux : Bool → List Char → List Char
  | _, [] => []
  | prevSpace, c :: rest =>
    if jsSpaceChar c then
      (if prevSpace then [] else [' ']) ++ squashAux true rest
    else c :: squashAux false rest

/-- Transcription of the source helper `normalize`:
`String(s || "").toLowerCase().replace(/[^\w\s-]/g, " ").replace(/\s+/g, " ").trim()`. -/
def normalize (s : String) : String :=
  String.mk (jsTrimChars (squashAux false ((s.data.map jsLowerChar).map replaceNonWordChar)))

/-- Helper for JS `String.prototype.includes`: does the needle occur as a
contiguous run somewhere in the haystack? -/
def strIncludesAux (needle : List Char) : List Char → Bool
  | [] => needle.isEmpty
  | c :: rest => needle.isPrefixOf (c :: rest) || strIncludesAux needle rest

/-- JS `hay.includes(needle)`. -/
def strIncludes (hay needle : String) : Bool := strIncludesAux needle.data hay.data

/-- JS `t.replace("%", "")`: remove the first occurrence of the percent
sign (string `replace` with a string pattern replaces only the first). -/
def removeFirstPercent : List Char → List Char
  | [] => []
  | c :: rest => if c = '%' then rest else c :: removeFirstPercent rest

/-- Value of a digit run. -/
def digitsToNat (l : List Char) : ℕ := l.foldl (fun n c => 10 * n + (c.toNat - 48)) 0

/-- The decimal fragment of the JS `Number` builtin: trims whitespace, maps
the empty string to 0, parses an optional sign followed by an integer part
and an optional fraction part, and yields `none` (NaN) on anything else.
Hexadecimal, exponent and Infinity forms never occur in the rule texts this
repository feeds to `Number` and are mapped to `none`, which downstream
code treats exactly like NaN (fall back to the default). -/
def jsNumber (l0 : List Char) : Option ℚ :=
  let l := jsTrimChars l0
  if l.isEmpty then some 0 else
  let p : ℚ × List Char :=
    match l with
    | '-' :: rest => (-1, rest)
    | '+' :: rest => (1, rest)
    | _ => (1, l)
  let ip := p.2.takeWhile Char.isDigit
  match p.2.dropWhile Char.isDigit with
  | [] => if ip.isEmpty then none else some (p.1 * (digitsToNat ip : ℚ))
  | '.' :: rest =>
    let fp := rest.takeWhile Char.isDigit
    if (rest.dropWhile Char.isDigit).isEmpty then
      if ip.isEmpty && fp.isEmpty then none
      else some (p.1 * ((digitsToNat ip : ℚ) + (digitsToNat fp : ℚ) / 10 ^ fp.length))
    else none
  | _ => none

/-! ## Tax-rate resolution -/

/-- One row of the `estimate_rules` table as selected by the loader
(`rule_key, rule_text`; the `priority` column only orders the list). -/
structure Rule where
  rule_key : String
  rule_text : String
deriving DecidableEq

/-- The compiled-in default rate: `TAX_RATE_DEFAULT` env var defaulting to
0.112. -/
def TAX_RATE_DEFAULT : ℚ := 112 / 1000

/-- Transcription of `getTaxRateFromRules` from pages/api/process-job.js:
find the rule whose upper-cased key is TAX_RATE; parse its text with the
first percent sign removed; on a non-number use the default; if the text
contains a percent sign or the value exceeds 1 return `round2 (n / 100)`,
otherwise return the value unchanged. -/
def getTaxRateFromRules (dflt : ℚ) (rules : List Rule) : ℚ :=
  match rules.find? (fun x => jsToUpper x.rule_key == "TAX_RATE") with
  | none => dflt
  | some r =>
    let t := jsTrimChars r.rule_text.data
    match jsNumber (removeFirstPercent t) with
    | none => dflt
    | some n => if t.contains '%' || decide (1 < n) then round2 (n / 100) else n

/-! ## Pricing engine (`validateAndPrice`) -/

/-- One row of `pricebook_items` as selected by the loader
(`code,name,unit,unit_price,min_qty,notes`).  The `unit_price` column is a
numeric column (the source applies `Number(...)` to it, the identity on
numbers); `min_qty` is nullable, which the source guards with `?? 1` and
`|| 1`. -/
structure PbItem where
  code : String
  name : String
  unit : Option String
  unit_price : ℚ
  min_qty : Option ℚ
  notes : Option String
deriving DecidableEq

/-- A Stage-B mapped line item as consumed by `validateAndPrice`.  The
output schema fixes `code`, `description`, `qty`; `unit_price` is `none`
unless the model smuggled a price in anyway (the tamper check
`li?.unit_price !== undefined/null`).  A JSON number is always finite, so
`Option ℚ` with `none` for absent/null is a faithful model. -/
structure MappedItem where
  code : String
  description : String
  qty : Option ℚ
  unit_price : Option ℚ
deriving DecidableEq

/-- An entry of the Stage-B `unmapped_items` array (raw text plus reason),
which `validateAndPrice` copies through untouched. -/
structure ModelUnmapped where
  raw_text : String
  reason : String
deriving DecidableEq

/-- An entry of the engine's own unmapped list:
`{ ...li, reason: "code_not_in_pricebook" }` (the object spread is modelled
by pairing the item with the reason). -/
structure UnmappedOut where
  item : MappedItem
  reason : String
deriving DecidableEq

/-- A priced line item as pushed onto `fixed`. -/
structure FixedItem where
  code : String
  name : String
  description : String
  qty : ℚ
  unit_price : ℚ
  total : ℚ
deriving DecidableEq

/-- The Stage-B output shape (`summary`, `line_items`, `assumptions`,
`unmapped_items`), already validated against the JSON schema, so the
`Array.isArray`/`String(...)` guards in the source are the identity. -/
structure Mapped where
  summary : String
  line_items : List MappedItem
  assumptions : List String
  unmapped_items : List ModelUnmapped
deriving DecidableEq

/-- The corrected estimate skeleton built by `validateAndPrice`. -/
structure Corrected where
  summary : String
  line_items : List FixedItem
  subtotal : ℚ
  assumptions : List String
  unmapped_items : List ModelUnmapped
deriving DecidableEq

/-- The full return value of `validateAndPrice`. -/
structure VPResult where
  corrected : Corrected
  errors : List String
  unmapped : List UnmappedOut
deriving DecidableEq

/-- JS `Map` built with `new Map(list.map(p => [p.code, p]))` followed by
`.get code`: the last entry with the key wins. -/
def mapGet (pbMap : List PbItem) (code : String) : Option PbItem :=
  pbMap.foldl (fun acc p => if p.code = code then some p else acc) none

/-- Quantity resolution of `validateAndPrice`:
`qtyNum = Number(li?.qty ?? pb.min_qty ?? 1)` and
`qty = Number.isFinite(qtyNum) && qtyNum > 0 ? qtyNum : Number(pb.min_qty || 1)`
(every modelled number is finite; `m || 1` is `1` exactly when `m` is 0 or
null). -/
def resolveQty (liQty : Option ℚ) (minQty : Option ℚ) : ℚ :=
  let qtyNum := liQty.getD (minQty.getD 1)
  if 0 < qtyNum then qtyNum
  else match minQty with
    | some m => if m = 0 then 1 else m
    | none => 1

/-- The diagnostic string
`Model attempted unit_price for ${code}: model=${mup} pricebook=${unitPrice}`
(JS numeric formatting is modelled by the numeral's own string form; the
claims only need that the message carries the code and both prices). -/
def tamperMsg (code : String) (mup unitPrice : ℚ) : String :=
  "Model attempted unit_price for " ++ code ++ ": model=" ++ toString mup
    ++ " pricebook=" ++ toString unitPrice

/-- The tamper check of `validateAndPrice`: if the model supplied a
`unit_price` and, after `round2`, it differs from the pricebook price, one
diagnostic is recorded. -/
def tamperCheck (code : String) (li : MappedItem) (unitPrice : ℚ) : List String :=
  match li.unit_price with
  | some mup => if round2 mup ≠ round2 unitPrice then [tamperMsg code mup unitPrice] else []
  | none => []

/-- The priced line item pushed onto `fixed` for a catalog hit. -/
def pricedOf (li : MappedItem) (pb : PbItem) : FixedItem :=
  let qty := resolveQty li.qty pb.min_qty
  { code := pb.code, name := pb.name, description := li.description,
    qty := qty, unit_price := pb.unit_price, total := round2 (qty * pb.unit_price) }

/-- The `for (const li of lineItems)` loop of `validateAndPrice`, returning
the accumulated `(errors, unmapped, fixed)` in push order. -/
def vpLoop (pbMap : List PbItem) : List MappedItem → List String × List UnmappedOut × List FixedItem
  | [] => ([], [], [])
  | li :: rest =>
    let acc := vpLoop pbMap rest
    let code := jsTrimString li.code
    match mapGet pbMap code with
    | none => (acc.1, ⟨li, "code_not_in_pricebook"⟩ :: acc.2.1, acc.2.2)
    | some pb => (tamperCheck code li pb.unit_price ++ acc.1, acc.2.1, pricedOf li pb :: acc.2.2)

/-- Transcription of `validateAndPrice` from pages/api/process-job.js. -/
def validateAndPrice (mapped : Mapped) (pbMap : List PbItem) : VPResult :=
  let acc := vpLoop pbMap mapped.line_items
  let subtotal := round2 (acc.2.2.foldl (fun s x => s + x.total) 0)
  { corrected :=
      { summary := mapped.summary, line_items := acc.2.2, subtotal := subtotal,
        assumptions := mapped.assumptions, unmapped_items := mapped.unmapped_items },
    errors := acc.1, unmapped := acc.2.1 }

/-- Spec-side quantity rule, word for word from the claim: use the supplied
quantity when it is a (finite) number greater than zero, otherwise the
catalog entry's minimum billable quantity, defaulting to 1 when unset. -/
def claimQty (supplied : Option ℚ) (minQty : Option ℚ) : ℚ :=
  match supplied with
  | some q => if 0 < q then q else minQty.getD 1
  | none => minQty.getD 1

/-- C1.  Tax-rate resolution, evaluated at the claim's own inputs.  The
claim (and the source's own comments, which present rule texts `"0.112"`
and `"11.2%"` as equivalent, with compiled-in default 0.112) expects all
three texts to resolve to 0.112; the code instead applies the cent-rounding
helper `round2` to the rate in the percent branch, so `"11.2%"` and
`"11.2"` resolve to 0.11, not 0.112.  The absent-rule and non-numeric
fallbacks do behave as claimed. -/
theorem taxRate_resolution_evaluation :
    getTaxRateFromRules TAX_RATE_DEFAULT [⟨"TAX_RATE", "0.112"⟩] = 112 / 1000 ∧
    getTaxRateFromRules TAX_RATE_DEFAULT [⟨"TAX_RATE", "11.2%"⟩] = 11 / 100 ∧
    getTaxRateFromRules TAX_RATE_DEFAULT [⟨"TAX_RATE", "11.2"⟩] = 11 / 100 ∧
    getTaxRateFromRules TAX_RATE_DEFAULT [] = TAX_RATE_DEFAULT ∧
    getTaxRateFromRules TAX_RATE_DEFAULT [⟨"TAX_RATE", "call office"⟩] = TAX_RATE_DEFAULT ∧
    (11 / 100 : ℚ) ≠ 112 / 1000 := by
  refine ⟨?_, ?_, ?_, ?_, ?_, by norm_num⟩ <;>
    first
      | (simp +decide [getTaxRateFromRules, jsNumber, jsTrimChars, digitsToNat,
          TAX_RATE_DEFAULT, removeFirstPercent, jsToUpper, jsUpperChar, round2,
          jsRound, epsJS]
         norm_num)
      | simp +decide [getTaxRateFromRules, jsNumber, jsTrimChars, digitsToNat,
          TAX_RATE_DEFAULT, removeFirstPercent, jsToUpper, jsUpperChar, round2,
          jsRound, epsJS]

/-- The engine quantity resolution agrees with the claim's quantity rule
whenever the catalog minimum is not the JS-falsy value 0 (which the code's
`pb.min_qty || 1` treats as unset). -/
theorem resolveQty_eq_claimQty (q minQty : Option ℚ) (hmin : minQty ≠ some 0) :
    resolveQty q minQty = claimQty q minQty := by
  cases q with
  | some qv =>
    by_cases hq : 0 < qv
    · simp [resolveQty, claimQty, hq]
    · cases minQty with
      | some m =>
        have hm : ¬ m = 0 := by intro h; exact hmin (by rw [h])
        simp [resolveQty, claimQty, hq, hm]
      | none => simp [resolveQty, claimQty, hq]
  | none =>
    cases minQty with
    | some m =>
      have hm : ¬ m = 0 := by intro h; exact hmin (by rw [h])
      by_cases hq : 0 < m
      · simp [resolveQty, claimQty, hq]
      · simp [resolveQty, claimQty, hq, hm]
    | none => simp [resolveQty, claimQty]

/-- The unmapped output of the pricing loop is exactly the sequence of input
items whose trimmed code misses the catalog, each tagged with the reason. -/
theorem vpLoop_unmapped (pbMap : List PbItem) (items : List MappedItem) :
    (vpLoop pbMap items).2.1
      = (items.filter fun li => (mapGet pbMap (jsTrimString li.code)).isNone).map
          fun li => ⟨li, "code_not_in_pricebook"⟩ := by
  induction items with
  | nil => rfl
  | cons li rest ih =>
    cases h : mapGet pbMap (jsTrimString li.code) with
    | none => simp [vpLoop, h, List.filter_cons, ih]
    | some pb => simp [vpLoop, h, List.filter_cons, ih]

/-- The priced output of the pricing loop is exactly the catalog hits, in
input order, priced by `pricedOf`. -/
theorem vpLoop_fixed (pbMap : List PbItem) (items : List MappedItem) :
    (vpLoop pbMap items).2.2
      = items.filterMap fun li => (mapGet pbMap (jsTrimString li.code)).map (pricedOf li) := by
  induction items with
  | nil => rfl
  | cons li rest ih =>
    cases h : mapGet pbMap (jsTrimString li.code) with
    | none => simp [vpLoop, h, List.filterMap_cons, ih]
    | some pb => simp [vpLoop, h, List.filterMap_cons, ih]

/-- Folding `s + x.total` over a list sums the totals. -/
theorem foldl_add_total (l : List FixedItem) (s : ℚ) :
    l.foldl (fun a x => a + x.total) s = s + (l.map FixedItem.total).sum := by
  induction l generalizing s with
  | nil => simp
  | cons x rest ih => simp [List.foldl_cons, ih, add_assoc]

/-- A tamper diagnostic is in the loop's error list whenever a catalog-hit
item carried a differing model price. -/
theorem vpLoop_errors_mem (pbMap : List PbItem) (items : List MappedItem)
    (li : MappedItem) (pb : PbItem) (mup : ℚ)
    (hmem : li ∈ items) (hfound : mapGet pbMap (jsTrimString li.code) = some pb)
    (hsup : li.unit_price = some mup) (hdiff : round2 mup ≠ round2 pb.unit_price) :
    tamperMsg (jsTrimString li.code) mup pb.unit_price ∈ (vpLoop pbMap items).1 := by
  induction items with
  | nil => cases hmem
  | cons hd rest ih =>
    rcases List.mem_cons.mp hmem with h | h
    · subst h
      rw [vpLoop]
      simp only [hfound]
      apply List.mem_append.mpr
      left
      simp [tamperCheck, hsup, hdiff]
    · have htail := ih h
      rw [vpLoop]
      cases hhd : mapGet pbMap (jsTrimString hd.code) with
      | none => simpa using htail
      | some pb2 =>
        simp only
        exact List.mem_append.mpr (Or.inr htail)

/-- C2.  Pricing a mapped line item whose code is in the catalog: the
quantity follows the claim's rule (`claimQty`: supplied if positive, else
the catalog minimum, 1 if unset), the unit price is the catalog price
regardless of anything in the input, and the line total is the half-up
2-decimal rounding of quantity times unit price.  Hypotheses: the catalog
minimum is not the JS-falsy 0 (which the code reads as unset), and the
resolved quantity and catalog price are exact cent values, where the
epsilon-adjusted `round2` coincides with plain half-up cent rounding. -/
theorem mapped_item_pricing (mapped : Mapped) (pbMap : List PbItem)
    (li : MappedItem) (pb : PbItem)
    (hitems : mapped.line_items = [li])
    (hfound : mapGet pbMap (jsTrimString li.code) = some pb)
    (hmin : pb.min_qty ≠ some 0)
    (hq : ∃ k : ℤ, claimQty li.qty pb.min_qty = (k : ℚ) / 100)
    (hp : ∃ j : ℤ, pb.unit_price = (j : ℚ) / 100) :
    (validateAndPrice mapped pbMap).corrected.line_items =
      [{ code := pb.code, name := pb.name, description := li.description,
         qty := claimQty li.qty pb.min_qty, unit_price := pb.unit_price,
         total := roundHalfUpCents (claimQty li.qty pb.min_qty * pb.unit_price) }] := by
  obtain ⟨k, hk⟩ := hq
  obtain ⟨j, hj⟩ := hp
  have hline : (validateAndPrice mapped pbMap).corrected.line_items
      = [pricedOf li pb] := by
    show (vpLoop pbMap mapped.line_items).2.2 = [pricedOf li pb]
    rw [hitems, vpLoop_fixed]
    simp [hfound]
  rw [hline]
  have hqe : resolveQty li.qty pb.min_qty = claimQty li.qty pb.min_qty :=
    resolveQty_eq_claimQty _ _ hmin
  have hcents : ∃ m : ℤ, claimQty li.qty pb.min_qty * pb.unit_price = (m : ℚ) / 10 ^ 9 := by
    refine ⟨k * j * 10 ^ 5, ?_⟩
    rw [hk, hj]
    push_cast
    ring
  simp only [pricedOf, hqe]
  rw [round2_eq_roundHalfUpCents _ hcents]

/-- C3.  Items whose code misses the catalog go to the unmapped list with a
reason, produce no priced line item, and the subtotal is the 2-decimal
rounding of the sum of the priced items' totals only (so missing items
contribute 0 to it); the whole batch always succeeds. -/
theorem unmapped_items_isolation (mapped : Mapped) (pbMap : List PbItem) :
    (validateAndPrice mapped pbMap).unmapped
      = (mapped.line_items.filter fun li => (mapGet pbMap (jsTrimString li.code)).isNone).map
          (fun li => ⟨li, "code_not_in_pricebook"⟩) ∧
    (validateAndPrice mapped pbMap).corrected.line_items
      = mapped.line_items.filterMap
          (fun li => (mapGet pbMap (jsTrimString li.code)).map (pricedOf li)) ∧
    (validateAndPrice mapped pbMap).corrected.subtotal
      = round2 (((validateAndPrice mapped pbMap).corrected.line_items.map FixedItem.total).sum) := by
  refine ⟨vpLoop_unmapped pbMap mapped.line_items, vpLoop_fixed pbMap mapped.line_items, ?_⟩
  show round2 ((vpLoop pbMap mapped.line_items).2.2.foldl (fun s x => s + x.total) 0)
      = round2 (((vpLoop pbMap mapped.line_items).2.2.map FixedItem.total).sum)
  rw [foldl_add_total, zero_add]

/-- C4.  A catalog-hit item carrying a model-supplied unit price that
differs after rounding from the catalog price yields a diagnostic naming
the code and both prices, while the item is still priced into the output
with the catalog unit price (the diagnostic blocks nothing). -/
theorem tamper_diagnostic (mapped : Mapped) (pbMap : List PbItem)
    (li : MappedItem) (pb : PbItem) (mup : ℚ)
    (hmem : li ∈ mapped.line_items)
    (hfound : mapGet pbMap (jsTrimString li.code) = some pb)
    (hsup : li.unit_price = some mup)
    (hdiff : round2 mup ≠ round2 pb.unit_price) :
    tamperMsg (jsTrimString li.code) mup pb.unit_price ∈ (validateAndPrice mapped pbMap).errors ∧
    pricedOf li pb ∈ (validateAndPrice mapped pbMap).corrected.line_items ∧
    (pricedOf li pb).unit_price = pb.unit_price := by
  refine ⟨vpLoop_errors_mem pbMap mapped.line_items li pb mup hmem hfound hsup hdiff, ?_, rfl⟩
  show pricedOf li pb ∈ (vpLoop pbMap mapped.line_items).2.2
  rw [vpLoop_fixed]
  exact List.mem_filterMap.mpr ⟨li, hmem, by rw [hfound]; rfl⟩

/-- Witness for C2 at the claim's example: code X1 priced 125.00, quantity
3, line total 375.00. -/
theorem mapped_item_pricing_witness :
    mapGet [⟨"X1", "Item X1", none, 125, none, none⟩] (jsTrimString "X1")
      = some ⟨"X1", "Item X1", none, 125, none, none⟩ ∧
    (validateAndPrice ⟨"", [⟨"X1", "d", some 3, none⟩], [], []⟩
        [⟨"X1", "Item X1", none, 125, none, none⟩]).corrected.line_items
      = [⟨"X1", "Item X1", "d", 3, 125, 375⟩] := by
  have hfound : mapGet [(⟨"X1", "Item X1", none, 125, none, none⟩ : PbItem)]
      (jsTrimString "X1") = some ⟨"X1", "Item X1", none, 125, none, none⟩ := by
    simp +decide [mapGet, jsTrimString, jsTrimChars]
  refine ⟨hfound, ?_⟩
  have h := mapped_item_pricing ⟨"", [⟨"X1", "d", some 3, none⟩], [], []⟩
    [⟨"X1", "Item X1", none, 125, none, none⟩] ⟨"X1", "d", some 3, none⟩
    ⟨"X1", "Item X1", none, 125, none, none⟩ rfl hfound (by simp)
    ⟨300, by norm_num [claimQty]⟩ ⟨12500, by norm_num⟩
  rw [h]
  norm_num [claimQty, roundHalfUpCents]

/-- Witness for C4: a model price of 100 against a catalog price of 125
produces the diagnostic and the item is still priced at 125. -/
theorem tamper_diagnostic_witness :
    (⟨"P1", "d", some 1, some 100⟩ : MappedItem) ∈
        [(⟨"P1", "d", some 1, some 100⟩ : MappedItem)] ∧
    round2 100 ≠ round2 (125 : ℚ) ∧
    tamperMsg (jsTrimString "P1") 100 125 ∈
      (validateAndPrice ⟨"", [⟨"P1", "d", some 1, some 100⟩], [], []⟩
        [⟨"P1", "Panel", none, 125, none, none⟩]).errors := by
  refine ⟨by simp, by norm_num [round2, jsRound, epsJS], ?_⟩
  exact (tamper_diagnostic ⟨"", [⟨"P1", "d", some 1, some 100⟩], [], []⟩
    [⟨"P1", "Panel", none, 125, none, none⟩] ⟨"P1", "d", some 1, some 100⟩
    ⟨"P1", "Panel", none, 125, none, none⟩ 100 (by simp)
    (by simp +decide [mapGet, jsTrimString, jsTrimChars])
    rfl (by norm_num [round2, jsRound, epsJS])).1

/-! ## Estimate assembly: trip fee, tax, total, persistence
(the `apply_trip_fee`, `compute_tax_total` and `save_estimate_complete`
steps of the handler). -/

/-- One row of `trip_fees` as selected by the loader
(`label,base_fee,per_mile,after_hours_fee`); `base_fee` is nullable, which
the source guards with `|| 0`. -/
structure TripFee where
  label : String
  base_fee : Option ℚ
  per_mile : Option ℚ
  after_hours_fee : Option ℚ
deriving DecidableEq

/-- Transcription of the `apply_trip_fee` step of the handler: when at
least one active trip-fee row exists, the first one is used; if the
reserved pricebook code TRIP_FEE resolves, a synthetic line item is pushed
and the subtotal re-rounded, otherwise a diagnostic is pushed.  Returns the
updated estimate skeleton, the updated error list, and `tripFeeAmount`. -/
def applyTripFee (tripFees : List TripFee) (pbMap : List PbItem)
    (corrected : Corrected) (errors : List String) : Corrected × List String × ℚ :=
  match tripFees with
  | [] => (corrected, errors, 0)
  | tf :: _ =>
    match mapGet pbMap "TRIP_FEE" with
    | some pbTrip =>
      let amt := round2 (tf.base_fee.getD 0)
      ({ corrected with
          line_items := corrected.line_items ++
            [⟨"TRIP_FEE", pbTrip.name, "Trip Fee - " ++ tf.label, 1, amt, amt⟩],
          subtotal := round2 (corrected.subtotal + amt) },
       errors, amt)
    | none => (corrected, errors ++ ["Trip fee skipped: pricebook code TRIP_FEE not found."], 0)

/-- The assembled estimate as mutated by the `compute_tax_total` step and
stored by `save_estimate_complete`. -/
structure FinalEstimate where
  summary : String
  line_items : List FixedItem
  subtotal : ℚ
  assumptions : List String
  unmapped_items : List ModelUnmapped
  tax_rate : ℚ
  tax : ℚ
  total : ℚ
  trip_fee : ℚ
  estimate_id : String
deriving DecidableEq

/-- Transcription of the `compute_tax_total` step: the tax rate comes from
the rules (never from model output), `tax = round2(subtotal * taxRate)` on
the post-trip-fee subtotal, `total = round2(subtotal + tax)`. -/
def computeTaxTotal (dflt : ℚ) (rules : List Rule) (c : Corrected)
    (tripFeeAmount : ℚ) (jobId : String) : FinalEstimate :=
  let taxRate := getTaxRateFromRules dflt rules
  let tax := round2 (c.subtotal * taxRate)
  let total := round2 (c.subtotal + tax)
  { summary := c.summary, line_items := c.line_items, subtotal := c.subtotal,
    assumptions := c.assumptions, unmapped_items := c.unmapped_items,
    tax_rate := taxRate, tax := tax, total := total,
    trip_fee := tripFeeAmount, estimate_id := jobId }

/-- A partial update object passed to `.update(...)` on `estimate_jobs`:
`none` means the field is absent from the update (not written), `some v`
means it is written with `v`; a written nullable column carries an inner
`Option`.  Timestamps are epoch milliseconds.  `estimate_text` is the
serialized copy of the estimate (`JSON.stringify` is modelled by carrying
the value itself). -/
structure JobUpdate where
  status : Option String := none
  started_at : Option ℤ := none
  ai_started_at : Option ℤ := none
  ai_completed_at : Option ℤ := none
  completed_at : Option ℤ := none
  error : Option (Option String) := none
  email_error : Option (Option String) := none
  config_version_id : Option ℕ := none
  estimate_json : Option FinalEstimate := none
  estimate_text : Option FinalEstimate := none
  validation_errors : Option (Option String) := none
  unmapped_items : Option (Option (List UnmappedOut)) := none
  email_sent_at : Option ℤ := none
deriving DecidableEq

/-- The `save_estimate_complete` update: status complete, completion
timestamps, the assembled estimate, accumulated diagnostics
(`errors.length ? errors.join("\n") : null`,
`unmapped?.length ? unmapped : null`), and `error: null`. -/
def saveCompleteUpdate (now : ℤ) (est : FinalEstimate) (errors : List String)
    (unmapped : List UnmappedOut) : JobUpdate :=
  { status := some "complete",
    ai_completed_at := some now,
    completed_at := some now,
    estimate_json := some est,
    estimate_text := some est,
    validation_errors :=
      some (if errors.isEmpty then none else some (String.intercalate "\n" errors)),
    unmapped_items := some (if unmapped.isEmpty then none else some unmapped),
    error := some none }

/-- C5.  Trip-fee application with at least one active policy: when the
reserved catalog entry TRIP_FEE exists, exactly one synthetic line item
with quantity 1 and unit price and total equal to the policy base fee is
appended and the subtotal grows by exactly the base fee; when it is
absent, line items and subtotal are untouched and the skip diagnostic is
recorded instead — no price is fabricated.  Hypotheses: the incoming
subtotal and the base fee are exact cent values (both always are: the
subtotal is a `round2` output and the base fee is a currency column), so
the re-rounding in the code is the identity. -/
theorem trip_fee_application (tf : TripFee) (rest : List TripFee)
    (pbMap : List PbItem) (c : Corrected) (errs : List String)
    (hs : ∃ k : ℤ, c.subtotal = (k : ℚ) / 100)
    (hb : ∃ j : ℤ, tf.base_fee.getD 0 = (j : ℚ) / 100) :
    (∀ pbTrip, mapGet pbMap "TRIP_FEE" = some pbTrip →
      applyTripFee (tf :: rest) pbMap c errs =
        ({ c with
            line_items := c.line_items ++
              [⟨"TRIP_FEE", pbTrip.name, "Trip Fee - " ++ tf.label, 1,
                tf.base_fee.getD 0, tf.base_fee.getD 0⟩],
            subtotal := c.subtotal + tf.base_fee.getD 0 },
         errs, tf.base_fee.getD 0)) ∧
    (mapGet pbMap "TRIP_FEE" = none →
      applyTripFee (tf :: rest) pbMap c errs =
        (c, errs ++ ["Trip fee skipped: pricebook code TRIP_FEE not found."], 0)) := by
  obtain ⟨k, hk⟩ := hs
  obtain ⟨j, hj⟩ := hb
  have hamt : round2 (tf.base_fee.getD 0) = tf.base_fee.getD 0 := by
    rw [hj]; exact round2_intDiv j
  have hsub : round2 (c.subtotal + tf.base_fee.getD 0) = c.subtotal + tf.base_fee.getD 0 := by
    rw [hk, hj]
    have h1 : ((k : ℚ) / 100 + (j : ℚ) / 100) = ((k + j : ℤ) : ℚ) / 100 := by
      push_cast; ring
    rw [h1, round2_intDiv (k + j)]
  constructor
  · intro pbTrip hfound
    simp only [applyTripFee, hfound, hamt, hsub]
  · intro hnone
    simp only [applyTripFee, hnone]

/-- C6.  The estimate assembled by `compute_tax_total` and persisted with
terminal status complete by `save_estimate_complete` is internally
consistent: its tax is the rule-resolved rate times the post-trip-fee
subtotal rounded to cents, its total is exactly subtotal plus tax to the
cent, and both are computed here from the subtotal and the rules alone —
the model output contains no tax or total field that is consulted.
Hypothesis: the subtotal is an exact cent value (it always is, being a
`round2` output). -/
theorem estimate_consistency (dflt : ℚ) (rules : List Rule) (c : Corrected)
    (amt : ℚ) (jobId : String) (now : ℤ) (errs : List String) (unm : List UnmappedOut)
    (hs : ∃ k : ℤ, c.subtotal = (k : ℚ) / 100) :
    (computeTaxTotal dflt rules c amt jobId).tax
        = round2 (getTaxRateFromRules dflt rules * (computeTaxTotal dflt rules c amt jobId).subtotal) ∧
    (computeTaxTotal dflt rules c amt jobId).total
        = (computeTaxTotal dflt rules c amt jobId).subtotal
          + (computeTaxTotal dflt rules c amt jobId).tax ∧
    (computeTaxTotal dflt rules c amt jobId).subtotal = c.subtotal ∧
    (saveCompleteUpdate now (computeTaxTotal dflt rules c amt jobId) errs unm).status
        = some "complete" ∧
    (saveCompleteUpdate now (computeTaxTotal dflt rules c amt jobId) errs unm).estimate_json
        = some (computeTaxTotal dflt rules c amt jobId) := by
  obtain ⟨k, hk⟩ := hs
  have htax : (computeTaxTotal dflt rules c amt jobId).tax
      = round2 (c.subtotal * getTaxRateFromRules dflt rules) := rfl
  have hsub : (computeTaxTotal dflt rules c amt jobId).subtotal = c.subtotal := rfl
  refine ⟨?_, ?_, hsub, rfl, rfl⟩
  · rw [htax, hsub, mul_comm]
  · obtain ⟨m, hm⟩ := round2_cents (c.subtotal * getTaxRateFromRules dflt rules)
    have htot : (computeTaxTotal dflt rules c amt jobId).total
        = round2 (c.subtotal + round2 (c.subtotal * getTaxRateFromRules dflt rules)) := rfl
    rw [htot, htax, hsub, hm, hk]
    have h1 : ((k : ℚ) / 100 + (m : ℚ) / 100) = ((k + m : ℤ) : ℚ) / 100 := by
      push_cast; ring
    rw [h1, round2_intDiv (k + m)]

/-- Witness for C5 at the claim's example: base fee 85.00 on a subtotal of
100.00 appends one 85.00 line item and raises the subtotal to 185.00. -/
theorem trip_fee_application_witness :
    (∃ k : ℤ, (⟨"s", [], 100, [], []⟩ : Corrected).subtotal = (k : ℚ) / 100) ∧
    (∃ j : ℤ, (⟨"Standard", some 85, none, none⟩ : TripFee).base_fee.getD 0 = (j : ℚ) / 100) ∧
    applyTripFee [⟨"Standard", some 85, none, none⟩]
        [⟨"TRIP_FEE", "Trip Fee", none, 0, none, none⟩] ⟨"s", [], 100, [], []⟩ []
      = (⟨"s", [⟨"TRIP_FEE", "Trip Fee", "Trip Fee - Standard", 1, 85, 85⟩], 185, [], []⟩, [], 85) := by
  refine ⟨⟨10000, by norm_num⟩, ⟨8500, by norm_num⟩, ?_⟩
  have h := (trip_fee_application ⟨"Standard", some 85, none, none⟩ []
    [⟨"TRIP_FEE", "Trip Fee", none, 0, none, none⟩] ⟨"s", [], 100, [], []⟩ []
    ⟨10000, by norm_num⟩ ⟨8500, by norm_num⟩).1
    ⟨"TRIP_FEE", "Trip Fee", none, 0, none, none⟩ (by simp +decide [mapGet])
  rw [h]
  norm_num
  decide

/-- Witness for C6 on a concrete subtotal of 45.00 with the default rate. -/
theorem estimate_consistency_witness :
    (∃ k : ℤ, (⟨"", [], 45, [], []⟩ : Corrected).subtotal = (k : ℚ) / 100) ∧
    (computeTaxTotal TAX_RATE_DEFAULT [] ⟨"", [], 45, [], []⟩ 0 "j").total
      = (computeTaxTotal TAX_RATE_DEFAULT [] ⟨"", [], 45, [], []⟩ 0 "j").subtotal
        + (computeTaxTotal TAX_RATE_DEFAULT [] ⟨"", [], 45, [], []⟩ 0 "j").tax := by
  refine ⟨⟨4500, by norm_num⟩, ?_⟩
  exact (estimate_consistency TAX_RATE_DEFAULT [] ⟨"", [], 45, [], []⟩ 0 "j" 0 [] []
    ⟨4500, by norm_num⟩).2.1

/-! ## Delivery phase (`send_email` / `mark_email_sent` steps)

The tail of the handler after pricing is straight-line code:
persist status complete with the estimate, render the email, send it, and
then either record `email_sent_at` or — inside the `catch` around
`sgMail.send` — write only `email_error` and return 200, so the outer
catch that would mark the job failed is never reached.  The effects are
modelled as an event trace in source order. -/

/-- The persisted row of `estimate_jobs`, restricted to the columns this
pipeline writes. -/
structure JobRow where
  status : String
  started_at : Option ℤ
  ai_started_at : Option ℤ
  ai_completed_at : Option ℤ
  completed_at : Option ℤ
  error : Option String
  email_error : Option String
  config_version_id : Option ℕ
  estimate_json : Option FinalEstimate
  estimate_text : Option FinalEstimate
  validation_errors : Option String
  unmapped_items : Option (List UnmappedOut)
  email_sent_at : Option ℤ
deriving DecidableEq

/-- Applying a partial update to a row: absent fields keep the stored
value, present fields overwrite it (for nullable columns the written value
is the inner Option). -/
def applyUpdate (row : JobRow) (u : JobUpdate) : JobRow :=
  { status := u.status.getD row.status,
    started_at := match u.started_at with | some t => some t | none => row.started_at,
    ai_started_at := match u.ai_started_at with | some t => some t | none => row.ai_started_at,
    ai_completed_at := match u.ai_completed_at with | some t => some t | none => row.ai_completed_at,
    completed_at := match u.completed_at with | some t => some t | none => row.completed_at,
    error := u.error.getD row.error,
    email_error := u.email_error.getD row.email_error,
    config_version_id := match u.config_version_id with | some v => some v | none => row.config_version_id,
    estimate_json := match u.estimate_json with | some e => some e | none => row.estimate_json,
    estimate_text := match u.estimate_text with | some e => some e | none => row.estimate_text,
    validation_errors := u.validation_errors.getD row.validation_errors,
    unmapped_items := u.unmapped_items.getD row.unmapped_items,
    email_sent_at := match u.email_sent_at with | some t => some t | none => row.email_sent_at }

/-- Observable effects of the completion phase, in source order. -/
inductive PipeEvent where
  | dbWrite (u : JobUpdate)
  | renderEmail
  | sendEmail
deriving DecidableEq

/-- The `mark_email_sent` update: `{ email_sent_at: nowIso(), email_error: null }`. -/
def emailSentUpdate (now : ℤ) : JobUpdate :=
  { email_sent_at := some now, email_error := some none }

/-- The update inside the `catch (mailErr)` block:
`{ email_error: msg }` and nothing else. -/
def emailErrorUpdate (msg : String) : JobUpdate :=
  { email_error := some (some msg) }

/-- The event trace of the handler from `save_estimate_complete` onward,
parameterised by the outcome of the external `sgMail.send` call. -/
def completionPhase (now : ℤ) (est : FinalEstimate) (errors : List String)
    (unmapped : List UnmappedOut) (sendResult : Except String Unit) : List PipeEvent :=
  [PipeEvent.dbWrite (saveCompleteUpdate now est errors unmapped),
   PipeEvent.renderEmail, PipeEvent.sendEmail] ++
  match sendResult with
  | Except.ok _ => [PipeEvent.dbWrite (emailSentUpdate now)]
  | Except.error msg => [PipeEvent.dbWrite (emailErrorUpdate msg)]

/-- The row state after a trace: database writes are applied in order,
the render/send events touch no state. -/
def runEvents (row : JobRow) (events : List PipeEvent) : JobRow :=
  events.foldl
    (fun r e => match e with | PipeEvent.dbWrite u => applyUpdate r u | _ => r) row

/-- C7.  Delivery-failure atomicity: the email is rendered and sent only
after the single database write that persists status complete together
with the saved estimate; when sending fails, the only subsequent write
sets `email_error` to the failure message and touches no other field, so
the final row still has status complete with the estimate intact. -/
theorem delivery_failure_atomicity (now : ℤ) (est : FinalEstimate)
    (errors : List String) (unmapped : List UnmappedOut) (msg : String) (row : JobRow) :
    completionPhase now est errors unmapped (Except.error msg)
      = [PipeEvent.dbWrite (saveCompleteUpdate now est errors unmapped),
         PipeEvent.renderEmail, PipeEvent.sendEmail,
         PipeEvent.dbWrite (emailErrorUpdate msg)] ∧
    (emailErrorUpdate msg).status = none ∧
    (emailErrorUpdate msg).estimate_json = none ∧
    (emailErrorUpdate msg).estimate_text = none ∧
    (emailErrorUpdate msg).completed_at = none ∧
    (emailErrorUpdate msg).ai_completed_at = none ∧
    (emailErrorUpdate msg).error = none ∧
    (emailErrorUpdate msg).validation_errors = none ∧
    (emailErrorUpdate msg).unmapped_items = none ∧
    (emailErrorUpdate msg).email_sent_at = none ∧
    (emailErrorUpdate msg).email_error = some (some msg) ∧
    (runEvents row (completionPhase now est errors unmapped (Except.error msg))).status
        = "complete" ∧
    (runEvents row (completionPhase now est errors unmapped (Except.error msg))).estimate_json
        = some est ∧
    (runEvents row (completionPhase now est errors unmapped (Except.error msg))).email_error
        = some msg ∧
    (runEvents row (completionPhase now est errors unmapped (Except.error msg)))
      = applyUpdate (applyUpdate row (saveCompleteUpdate now est errors unmapped))
          (emailErrorUpdate msg) :=
  ⟨rfl, rfl, rfl, rfl, rfl, rfl, rfl, rfl, rfl, rfl, rfl, rfl, rfl, rfl, rfl⟩

/-! ## Job claiming (`claimJob`)

The two database queries are modelled over the job table as a list:
`.in("status", variants)` filters by the explicit spelling lists,
`.or("started_at.lt.c,ai_started_at.lt.c")` is the SQL disjunction in
which a null timestamp compares false, and
`.order("created_at", { ascending: true }).limit(1)` picks an element
with minimal `created_at` among the matches (ties broken by table order). -/

/-- A row of `estimate_jobs`, restricted to the columns the claim logic
reads.  `created_at` / `started_at` / `ai_started_at` are epoch
milliseconds, the latter two nullable. -/
structure JobRec where
  id : ℕ
  status : String
  created_at : ℤ
  started_at : Option ℤ
  ai_started_at : Option ℤ
deriving DecidableEq

/-- The tolerated spellings of the queued state. -/
def QUEUED_VARIANTS : List String := ["queued", "Queued", "QUEUED"]

/-- The tolerated spellings of the processing state. -/
def PROCESSING_VARIANTS : List String := ["processing", "Processing", "PROCESSING"]

/-- The tolerated spellings of the ai_started state. -/
def AI_STARTED_VARIANTS : List String :=
  ["ai_started", "AI_STARTED", "Ai_Started", "ai-started", "AI-STARTED"]

/-- The default staleness threshold in minutes (`STALE_MINUTES` env var,
default 20). -/
def STALE_MINUTES : ℤ := 20

/-- SQL `column < cutoff` on a nullable timestamp: null compares false. -/
def tsLt : Option ℤ → ℤ → Bool
  | none, _ => false
  | some t, c => decide (t < c)

/-- The filter of the second query: status among the in-progress variants
and at least one progress timestamp older than the cutoff. -/
def isStaleInProgress (staleCutoff : ℤ) (j : JobRec) : Bool :=
  (PROCESSING_VARIANTS ++ AI_STARTED_VARIANTS).contains j.status &&
    (tsLt j.started_at staleCutoff || tsLt j.ai_started_at staleCutoff)

/-- One step of `ORDER BY created_at ASC LIMIT 1` as a fold: keep the
earliest-created matching row seen so far (the first one on ties). -/
def owStep (p : JobRec → Bool) (acc : Option JobRec) (j : JobRec) : Option JobRec :=
  if p j then
    match acc with
    | none => some j
    | some b => if j.created_at < b.created_at then some j else acc
  else acc

/-- `ORDER BY created_at ASC LIMIT 1` over the rows matching `p`. -/
def oldestWhere (p : JobRec → Bool) (jobs : List JobRec) : Option JobRec :=
  jobs.foldl (owStep p) none

/-- Transcription of `claimJob`: first the oldest job among the queued
spellings; only if none exists, the oldest stale in-progress job; else
nothing. -/
def claimJob (now staleMinutes : ℤ) (jobs : List JobRec) : Option JobRec :=
  match oldestWhere (fun j => QUEUED_VARIANTS.contains j.status) jobs with
  | some j => some j
  | none => oldestWhere (isStaleInProgress (now - staleMinutes * 60 * 1000)) jobs

/-- Starting the fold from a present accumulator always yields a result,
and never a later-created one. -/
theorem foldl_ow_le_acc (p : JobRec → Bool) (jobs : List JobRec) :
    ∀ b : JobRec, ∃ r : JobRec, jobs.foldl (owStep p) (some b) = some r ∧
      r.created_at ≤ b.created_at := by
  induction jobs with
  | nil => exact fun b => ⟨b, rfl, le_refl _⟩
  | cons j rest ih =>
    intro b
    by_cases hp : p j
    · by_cases hlt : j.created_at < b.created_at
      · obtain ⟨r, hr, hle⟩ := ih j
        refine ⟨r, ?_, ?_⟩
        · simpa [List.foldl_cons, owStep, hp, hlt] using hr
        · exact le_trans hle (le_of_lt hlt)
      · obtain ⟨r, hr, hle⟩ := ih b
        refine ⟨r, ?_, hle⟩
        simpa [List.foldl_cons, owStep, hp, hlt] using hr
    · obtain ⟨r, hr, hle⟩ := ih b
      refine ⟨r, ?_, hle⟩
      simpa [List.foldl_cons, owStep, hp] using hr

/-- A result of the fold either is the initial accumulator or comes from
the list and matches the filter. -/
theorem foldl_ow_some (p : JobRec → Bool) (jobs : List JobRec) :
    ∀ acc r, jobs.foldl (owStep p) acc = some r →
      acc = some r ∨ (r ∈ jobs ∧ p r = true) := by
  induction jobs with
  | nil => exact fun acc r h => Or.inl h
  | cons j rest ih =>
    intro acc r h
    rw [List.foldl_cons] at h
    rcases ih (owStep p acc j) r h with hstep | hrest
    · by_cases hp : p j
      · cases acc with
        | none =>
          simp only [owStep, hp, if_true] at hstep
          right
          refine ⟨?_, ?_⟩
          · rw [← Option.some_inj.mp hstep]; exact List.mem_cons_self j rest
          · rw [← Option.some_inj.mp hstep]; exact hp
        | some b =>
          by_cases hlt : j.created_at < b.created_at
          · simp only [owStep, hp, if_true, hlt] at hstep
            right
            refine ⟨?_, ?_⟩
            · rw [← Option.some_inj.mp hstep]; exact List.mem_cons_self j rest
            · rw [← Option.some_inj.mp hstep]; exact hp
          · simp only [owStep, hp, if_true, hlt] at hstep
            exact Or.inl hstep
      · simp only [owStep, hp] at hstep
        exact Or.inl hstep
    · exact Or.inr ⟨List.mem_cons_of_mem j hrest.1, hrest.2⟩

/-- A result of the fold is created no later than any matching element of
the list. -/
theorem foldl_ow_min (p : JobRec → Bool) (jobs : List JobRec) :
    ∀ acc r, jobs.foldl (owStep p) acc = some r →
      ∀ x ∈ jobs, p x = true → r.created_at ≤ x.created_at := by
  induction jobs with
  | nil => intro acc r _ x hx; cases hx
  | cons j rest ih =>
    intro acc r h x hx hpx
    rw [List.foldl_cons] at h
    rcases List.mem_cons.mp hx with hxj | hxrest
    · subst hxj
      -- after seeing x (with p x), the accumulator is created no later
      have hacc : ∃ b, owStep p acc x = some b ∧ b.created_at ≤ x.created_at := by
        cases acc with
        | none => exact ⟨x, by simp [owStep, hpx], le_refl _⟩
        | some b0 =>
          by_cases hlt : x.created_at < b0.created_at
          · exact ⟨x, by simp [owStep, hpx, hlt], le_refl _⟩
          · exact ⟨b0, by simp [owStep, hpx, hlt], le_of_not_lt hlt⟩
      obtain ⟨b, hb, hble⟩ := hacc
      rw [hb] at h
      obtain ⟨r2, hr2, hr2le⟩ := foldl_ow_le_acc p rest b
      rw [hr2] at h
      rw [← Option.some_inj.mp h]
      exact le_trans hr2le hble
    · exact ih (owStep p acc j) r h x hxrest hpx

/-- The fold from an empty accumulator yields nothing exactly when no list
element matches. -/
theorem foldl_ow_none (p : JobRec → Bool) (jobs : List JobRec) :
    oldestWhere p jobs = none ↔ ∀ x ∈ jobs, p x = false := by
  unfold oldestWhere
  induction jobs with
  | nil => simp
  | cons j rest ih =>
    rw [List.foldl_cons]
    by_cases hp : p j
    · simp only [owStep, hp, if_true]
      constructor
      · intro h
        obtain ⟨r, hr, _⟩ := foldl_ow_le_acc p rest j
        rw [hr] at h
        cases h
      · intro h
        have := h j (List.mem_cons_self j rest)
        rw [hp] at this
        cases this
    · simp only [owStep, hp]
      constructor
      · intro h x hx
        rcases List.mem_cons.mp hx with hxj | hxrest
        · subst hxj; exact eq_false_of_ne_true hp
        · exact ih.mp h x hxrest
      · intro h
        exact ih.mpr fun x hx => h x (List.mem_cons_of_mem j hx)

/-- C8.  Claiming order: if any job carries a queued spelling, the claimed
job is such a job, in the table, with minimal creation time among them
(stale jobs wait behind any queued job); if no queued job exists, the
claimed job is — exactly when one exists — an in-progress job with a
progress timestamp older than the cutoff, minimal by creation time among
those (so a stale job is reclaimed ahead of newer in-progress jobs, and a
fresh in-progress job is never claimed); if neither exists, nothing is
claimed. -/
theorem claim_order (now staleMinutes : ℤ) (jobs : List JobRec) :
    (jobs.any (fun j => QUEUED_VARIANTS.contains j.status) = true →
      ∃ r, claimJob now staleMinutes jobs = some r ∧ r ∈ jobs ∧
        QUEUED_VARIANTS.contains r.status = true ∧
        ∀ x ∈ jobs, QUEUED_VARIANTS.contains x.status = true →
          r.created_at ≤ x.created_at) ∧
    (jobs.any (fun j => QUEUED_VARIANTS.contains j.status) = false →
      (jobs.any (isStaleInProgress (now - staleMinutes * 60 * 1000)) = true →
        ∃ r, claimJob now staleMinutes jobs = some r ∧ r ∈ jobs ∧
          isStaleInProgress (now - staleMinutes * 60 * 1000) r = true ∧
          ∀ x ∈ jobs, isStaleInProgress (now - staleMinutes * 60 * 1000) x = true →
            r.created_at ≤ x.created_at) ∧
      (jobs.any (isStaleInProgress (now - staleMinutes * 60 * 1000)) = false →
        claimJob now staleMinutes jobs = none)) := by
  constructor
  · intro hany
    obtain ⟨x, hx, hpx⟩ := List.any_eq_true.mp hany
    cases hq : oldestWhere (fun j => QUEUED_VARIANTS.contains j.status) jobs with
    | none =>
      have := (foldl_ow_none _ jobs).mp hq x hx
      rw [hpx] at this
      cases this
    | some r =>
      refine ⟨r, ?_, ?_, ?_, ?_⟩
      · unfold claimJob; rw [hq]
      · rcases foldl_ow_some _ jobs none r hq with h | h
        · cases h
        · exact h.1
      · rcases foldl_ow_some _ jobs none r hq with h | h
        · cases h
        · exact h.2
      · exact foldl_ow_min _ jobs none r hq
  · intro hnone
    have hallq : ∀ x ∈ jobs, QUEUED_VARIANTS.contains x.status = false := by
      intro x hx
      rcases List.any_eq_false.mp hnone x hx with h
      exact eq_false_of_ne_true h
    have hq : oldestWhere (fun j => QUEUED_VARIANTS.contains j.status) jobs = none :=
      (foldl_ow_none _ jobs).mpr hallq
    constructor
    · intro hany
      obtain ⟨x, hx, hpx⟩ := List.any_eq_true.mp hany
      cases hs : oldestWhere (isStaleInProgress (now - staleMinutes * 60 * 1000)) jobs with
      | none =>
        have := (foldl_ow_none _ jobs).mp hs x hx
        rw [hpx] at this
        cases this
      | some r =>
        refine ⟨r, ?_, ?_, ?_, ?_⟩
        · unfold claimJob; rw [hq, hs]
        · rcases foldl_ow_some _ jobs none r hs with h | h
          · cases h
          · exact h.1
        · rcases foldl_ow_some _ jobs none r hs with h | h
          · cases h
          · exact h.2
        · exact foldl_ow_min _ jobs none r hs
    · intro hnones
      have halls : ∀ x ∈ jobs, isStaleInProgress (now - staleMinutes * 60 * 1000) x = false := by
        intro x hx
        rcases List.any_eq_false.mp hnones x hx with h
        exact eq_false_of_ne_true h
      unfold claimJob
      rw [hq, (foldl_ow_none _ jobs).mpr halls]

/-- Witness for C8: a stale processing job created earlier than a queued
job — the queued job is claimed first, as stated. -/
theorem claim_order_witness :
    ([⟨1, "processing", 10, some 0, none⟩, ⟨2, "queued", 50, none, none⟩] : List JobRec).any
        (fun j => QUEUED_VARIANTS.contains j.status) = true ∧
    claimJob 10000000 STALE_MINUTES
        [⟨1, "processing", 10, some 0, none⟩, ⟨2, "queued", 50, none, none⟩]
      = some ⟨2, "queued", 50, none, none⟩ ∧
    (∃ r, claimJob 10000000 STALE_MINUTES
        [⟨1, "processing", 10, some 0, none⟩, ⟨2, "queued", 50, none, none⟩] = some r ∧
      r ∈ [⟨1, "processing", 10, some 0, none⟩, ⟨2, "queued", 50, none, none⟩] ∧
      QUEUED_VARIANTS.contains r.status = true ∧
      ∀ x ∈ ([⟨1, "processing", 10, some 0, none⟩, ⟨2, "queued", 50, none, none⟩] : List JobRec),
        QUEUED_VARIANTS.contains x.status = true → r.created_at ≤ x.created_at) :=
  ⟨by decide, by decide,
   (claim_order 10000000 STALE_MINUTES
     [⟨1, "processing", 10, some 0, none⟩, ⟨2, "queued", 50, none, none⟩]).1 (by decide)⟩

/-! ## Configuration snapshot loader (`loadActiveConfig`)

The snapshot marker query is
`.eq("active", true).limit(1).maybeSingle()`: `limit(1)` truncates the
result to at most one row before `maybeSingle` inspects it, so
`maybeSingle` can only report "no row" — never "too many rows".  Each
dependent table query yields either its active rows or an error; any error
aborts the whole load. -/

/-- A row of `config_versions` (`id,label` selected, `active` filtered). -/
structure ConfigVersionRow where
  id : ℕ
  label : String
  active : Bool
deriving DecidableEq

/-- A row of `aliases` as selected (`alias,code`; the first column keeps
its source name, quoted because it is a Lean keyword). -/
structure AliasRow where
  «alias» : String
  code : String
deriving DecidableEq

/-- A row of `templates` as selected (`template_key,subject,body_html`). -/
structure TemplateRow where
  template_key : String
  subject : String
  body_html : Option String
deriving DecidableEq

/-- The outcome of each database query consumed by the loader: for
`config_versions` the full table (so that the active marking is visible),
for the dependent tables the active rows or a load error. -/
structure ConfigDb where
  config_versions : Except String (List ConfigVersionRow)
  pricebook_items : Except String (List PbItem)
  aliases : Except String (List AliasRow)
  trip_fees : Except String (List TripFee)
  estimate_rules : Except String (List Rule)
  templates : Except String (List TemplateRow)

/-- The alias index: `[String(a.alias || "").toLowerCase(), a.code]` pairs
(a JS `Map` iterated in insertion order; duplicate keys are irrelevant to
the claims, so the pair list itself is the model). -/
def buildAliasMap (aliases : List AliasRow) : List (String × String) :=
  aliases.map fun a => (jsToLower a.«alias», a.code)

/-- The loaded snapshot bundle.  `pricebookMap` is the `Map` keyed by code,
modelled as the row list with `mapGet` lookup. -/
structure LoadedConfig where
  cfg : ConfigVersionRow
  pricebook : List PbItem
  pricebookMap : List PbItem
  aliasMap : List (String × String)
  tripFees : List TripFee
  rules : List Rule
  templates : List TemplateRow
deriving DecidableEq

/-- Whether an `Except` result is a success. -/
def isOkE {α : Type} (e : Except String α) : Bool :=
  match e with
  | Except.ok _ => true
  | Except.error _ => false

/-- Transcription of `loadActiveConfig` (pages/api/process-job.js lines
273-311; lib/estimateConfig.js is the same logic): the active-marker query
takes the first active row if any (`limit(1).maybeSingle()`), throwing
`"No active config_versions row found."` when the query erred or returned
nothing; each dependent table error is rethrown with its table name; only
a fully loaded snapshot is returned. -/
def loadActiveConfig (db : ConfigDb) : Except String LoadedConfig :=
  match db.config_versions with
  | Except.error _ => Except.error "No active config_versions row found."
  | Except.ok rows =>
    match (rows.filter fun c => c.active).head? with
    | none => Except.error "No active config_versions row found."
    | some cfg =>
      match db.pricebook_items with
      | Except.error m => Except.error ("pricebook_items load failed: " ++ m)
      | Except.ok pricebook =>
        match db.aliases with
        | Except.error m => Except.error ("aliases load failed: " ++ m)
        | Except.ok aliases =>
          match db.trip_fees with
          | Except.error m => Except.error ("trip_fees load failed: " ++ m)
          | Except.ok tripFees =>
            match db.estimate_rules with
            | Except.error m => Except.error ("estimate_rules load failed: " ++ m)
            | Except.ok rules =>
              match db.templates with
              | Except.error m => Except.error ("templates load failed: " ++ m)
              | Except.ok templates =>
                Except.ok
                  { cfg := cfg, pricebook := pricebook, pricebookMap := pricebook,
                    aliasMap := buildAliasMap aliases, tripFees := tripFees,
                    rules := rules, templates := templates }

/-- C9 counterexample.  With two snapshots marked active (and every
dependent table loading fine) the loader does not fail: `limit(1)` hides
the second row from `maybeSingle`, and the first active snapshot is used.
This refutes the claim that more than one active snapshot is a
configuration error. -/
theorem config_loader_multiple_active_counterexample :
    loadActiveConfig
        ⟨Except.ok [⟨1, "A", true⟩, ⟨2, "B", true⟩], Except.ok [], Except.ok [],
         Except.ok [], Except.ok [], Except.ok []⟩
      = Except.ok ⟨⟨1, "A", true⟩, [], [], [], [], [], []⟩ := rfl

/-- C9 (amended).  The loader fails with the configuration error when the
active-marker query errs or no snapshot is marked active, and fails with
the named table error when any dependent table fails to load — in every
failing case the result is an error carrying no snapshot.  When one or
more snapshots are active and every table loads, the first active snapshot
is returned in full (with more than one active, the code silently proceeds
with the first instead of failing, as the counterexample shows). -/
theorem config_loader_failfast (db : ConfigDb) :
    (∀ e, db.config_versions = Except.error e →
      loadActiveConfig db = Except.error "No active config_versions row found.") ∧
    (∀ rows, db.config_versions = Except.ok rows →
      rows.filter (fun c => c.active) = [] →
      loadActiveConfig db = Except.error "No active config_versions row found.") ∧
    ((isOkE db.pricebook_items = false ∨ isOkE db.aliases = false ∨
      isOkE db.trip_fees = false ∨ isOkE db.estimate_rules = false ∨
      isOkE db.templates = false) →
      isOkE (loadActiveConfig db) = false) ∧
    (∀ rows c rest pb al tf ru te,
      db.config_versions = Except.ok rows →
      rows.filter (fun c2 => c2.active) = c :: rest →
      db.pricebook_items = Except.ok pb → db.aliases = Except.ok al →
      db.trip_fees = Except.ok tf → db.estimate_rules = Except.ok ru →
      db.templates = Except.ok te →
      loadActiveConfig db
        = Except.ok ⟨c, pb, pb, buildAliasMap al, tf, ru, te⟩) := by
  refine ⟨?_, ?_, ?_, ?_⟩
  · intro e he
    simp [loadActiveConfig, he]
  · intro rows hr hf
    simp [loadActiveConfig, hr, hf]
  · intro hbad
    cases hcv : db.config_versions with
    | error e => simp [loadActiveConfig, hcv, isOkE]
    | ok rows =>
      cases hh : (rows.filter fun c => c.active).head? with
      | none => simp [loadActiveConfig, hcv, hh, isOkE]
      | some cfg =>
        cases hpb : db.pricebook_items <;> cases hal : db.aliases <;>
          cases htf : db.trip_fees <;> cases hru : db.estimate_rules <;>
          cases hte : db.templates <;>
          simp_all [loadActiveConfig, isOkE]
  · intro rows c rest pb al tf ru te hr hf hpb hal htf hru hte
    simp [loadActiveConfig, hr, hf, hpb, hal, htf, hru, hte]

/-- Witness for C9 (amended): a table with a single inactive snapshot
makes the loader fail with the configuration error. -/
theorem config_loader_failfast_witness :
    (⟨Except.ok [⟨1, "A", false⟩], Except.ok [], Except.ok [], Except.ok [],
        Except.ok [], Except.ok []⟩ : ConfigDb).config_versions
      = Except.ok [⟨1, "A", false⟩] ∧
    loadActiveConfig
        ⟨Except.ok [⟨1, "A", false⟩], Except.ok [], Except.ok [], Except.ok [],
         Except.ok [], Except.ok []⟩
      = Except.error "No active config_versions row found." :=
  ⟨rfl,
   (config_loader_failfast
     ⟨Except.ok [⟨1, "A", false⟩], Except.ok [], Except.ok [], Except.ok [],
      Except.ok [], Except.ok []⟩).2.1 [⟨1, "A", false⟩] rfl (by decide)⟩

/-! ## Alias shortlisting (`bestAliasMatch`) -/

/-- The `best` record of `bestAliasMatch`: `{ alias, code }`. -/
structure AliasBest where
  «alias» : String
  code : String
deriving DecidableEq

/-- The loop body of `bestAliasMatch`: skip falsy (empty) aliases; when the
normalized text contains the alias, keep it if it is strictly longer than
the current best (or there is none). -/
def basStep (t : String) (best : Option AliasBest) (ac : String × String) : Option AliasBest :=
  if ac.1 = "" then best
  else if strIncludes t ac.1 then
    match best with
    | none => some ⟨ac.1, ac.2⟩
    | some b => if ac.1.length > b.«alias».length then some ⟨ac.1, ac.2⟩ else best
  else best

/-- Transcription of `bestAliasMatch`: normalize the raw text once, then
fold the alias map entries preferring the longest contained alias. -/
def bestAliasMatch (rawText : String) (aliasMap : List (String × String)) : Option AliasBest :=
  aliasMap.foldl (basStep (normalize rawText)) none

/-- Dropping a prefix keeps membership. -/
theorem mem_of_mem_dropWhile (p : Char → Bool) (l : List Char) (c : Char)
    (h : c ∈ l.dropWhile p) : c ∈ l := by
  induction l with
  | nil => simp at h
  | cons d rest ih =>
    rw [List.dropWhile_cons] at h
    by_cases hp : p d
    · simp only [hp, if_true] at h
      exact List.mem_cons_of_mem d (ih h)
    · simp only [hp, if_false] at h
      exact h

/-- Trimming keeps membership. -/
theorem mem_of_mem_jsTrimChars (l : List Char) (c : Char)
    (h : c ∈ jsTrimChars l) : c ∈ l := by
  unfold jsTrimChars at h
  rw [List.mem_reverse] at h
  have h2 := mem_of_mem_dropWhile _ _ _ h
  rw [List.mem_reverse] at h2
  exact mem_of_mem_dropWhile _ _ _ h2

/-- Every character of the whitespace-squashed list is a plain space or a
non-whitespace character of the input. -/
theorem squashAux_chars (l : List Char) :
    ∀ b c, c ∈ squashAux b l → c = ' ' ∨ (c ∈ l ∧ jsSpaceChar c = false) := by
  induction l with
  | nil => intro b c h; cases h
  | cons d rest ih =>
    intro b c h
    rw [squashAux] at h
    by_cases hd : jsSpaceChar d
    · simp only [hd, if_true] at h
      rcases List.mem_append.mp h with h1 | h1
      · left
        cases b with
        | true => simp at h1
        | false => simpa using h1
      · rcases ih true c h1 with h2 | h2
        · exact Or.inl h2
        · exact Or.inr ⟨List.mem_cons_of_mem d h2.1, h2.2⟩
    · simp only [hd, if_false] at h
      rcases List.mem_cons.mp h with h1 | h1
      · subst h1
        exact Or.inr ⟨List.mem_cons_self c rest, eq_false_of_ne_true hd⟩
      · rcases ih false c h1 with h2 | h2
        · exact Or.inl h2
        · exact Or.inr ⟨List.mem_cons_of_mem d h2.1, h2.2⟩

/-- Every character of a normalized string is a word character, a space,
or a hyphen: the punctuation-to-space replacement runs before the
whitespace squash and the trim, so nothing else survives. -/
theorem normalize_chars (s : String) (c : Char) (h : c ∈ (normalize s).data) :
    jsWordChar c = true ∨ c = ' ' ∨ c = '-' := by
  have h1 : c ∈ squashAux false ((s.data.map jsLowerChar).map replaceNonWordChar) :=
    mem_of_mem_jsTrimChars _ _ h
  rcases squashAux_chars _ false c h1 with h2 | ⟨h2, hns⟩
  · exact Or.inr (Or.inl h2)
  · obtain ⟨x, _, hxc⟩ := List.mem_map.mp h2
    by_cases hcond : jsWordChar x || jsSpaceChar x || decide (x = '-')
    · have hx : c = x := by
        rw [← hxc]
        simp [replaceNonWordChar, hcond]
      subst hx
      have hcond2 : jsWordChar c = true ∨ jsSpaceChar c = true ∨ c = '-' := by
        simpa [Bool.or_assoc] using hcond
      rcases hcond2 with h4 | h4 | h4
      · exact Or.inl h4
      · rw [h4] at hns; cases hns
      · exact Or.inr (Or.inr h4)
    · have hx : c = ' ' := by
        rw [← hxc]
        simp [replaceNonWordChar, hcond]
      exact Or.inr (Or.inl hx)

/-- A prefix only uses characters of the larger list. -/
theorem isPrefixOf_mem (n h : List Char) (hp : n.isPrefixOf h = true) :
    ∀ c ∈ n, c ∈ h := by
  induction n generalizing h with
  | nil => intro c hc; cases hc
  | cons d dn ih =>
    cases h with
    | nil => cases hp
    | cons e eh =>
      simp only [List.isPrefixOf_cons₂, Bool.and_eq_true, beq_iff_eq] at hp
      obtain ⟨h1, h2⟩ := hp
      intro c hc
      rcases List.mem_cons.mp hc with h3 | h3
      · subst h3
        rw [h1]
        exact List.mem_cons_self e eh
      · exact List.mem_cons_of_mem e (ih eh h2 c h3)

/-- When the needle occurs in the haystack, every character of the needle
occurs in the haystack. -/
theorem strIncludesAux_mem (n h : List Char) (hi : strIncludesAux n h = true) :
    ∀ c ∈ n, c ∈ h := by
  induction h with
  | nil =>
    rw [strIncludesAux] at hi
    rw [List.isEmpty_iff.mp hi]
    intro c hc; cases hc
  | cons e eh ih =>
    rw [strIncludesAux] at hi
    have hi2 : n.isPrefixOf (e :: eh) = true ∨ strIncludesAux n eh = true := by
      simpa using hi
    rcases hi2 with h1 | h1
    · exact isPrefixOf_mem n (e :: eh) h1
    · exact fun c hc => List.mem_cons_of_mem e (ih h1 c hc)

/-- String-level version of the previous lemma. -/
theorem strIncludes_mem (hay needle : String) (hi : strIncludes hay needle = true)
    (c : Char) (hc : c ∈ needle.data) : c ∈ hay.data :=
  strIncludesAux_mem needle.data hay.data hi c hc

/-- Whatever `bestAliasMatch` returns was matched: the normalized text
contains the returned alias. -/
theorem bestAliasMatch_includes (raw : String) (entries : List (String × String))
    (b : AliasBest) (hb : bestAliasMatch raw entries = some b) :
    strIncludes (normalize raw) b.«alias» = true := by
  have hinv : ∀ (l : List (String × String)) (acc : Option AliasBest),
      (∀ b0, acc = some b0 → strIncludes (normalize raw) b0.«alias» = true) →
      ∀ b0, l.foldl (basStep (normalize raw)) acc = some b0 →
        strIncludes (normalize raw) b0.«alias» = true := by
    intro l
    induction l with
    | nil => intro acc hacc b0 hfold; exact hacc b0 hfold
    | cons ac rest ih =>
      intro acc hacc b0 hfold
      rw [List.foldl_cons] at hfold
      refine ih (basStep (normalize raw) acc ac) ?_ b0 hfold
      intro b1 hb1
      unfold basStep at hb1
      by_cases he : ac.1 = ""
      · rw [if_pos he] at hb1
        exact hacc b1 hb1
      · rw [if_neg he] at hb1
        by_cases hincl : strIncludes (normalize raw) ac.1
        · rw [if_pos hincl] at hb1
          cases hacc2 : acc with
          | none =>
            rw [hacc2] at hb1
            simp only at hb1
            rw [← Option.some_inj.mp hb1]
            exact hincl
          | some bprev =>
            rw [hacc2] at hb1
            simp only at hb1
            by_cases hlen : ac.1.length > bprev.«alias».length
            · rw [if_pos hlen] at hb1
              rw [← Option.some_inj.mp hb1]
              exact hincl
            · rw [if_neg hlen] at hb1
              exact hacc b1 (hacc2 ▸ hb1)
        · rw [if_neg hincl] at hb1
          exact hacc b1 hb1
  exact hinv entries none (fun b0 h => by cases h) b hb

/-- Lowercasing fixes every non-word character (only A-Z move). -/
theorem jsLowerChar_fixed (c : Char) (hw : jsWordChar c = false) :
    jsLowerChar c = c := by
  unfold jsLowerChar
  rw [if_neg]
  intro hc
  unfold jsWordChar at hw
  simp only [Bool.or_eq_false_iff, decide_eq_false_iff_not] at hw
  exact hw.1.1.2 hc

/-- C10.  An alias key containing any character outside word characters,
whitespace, and hyphen can never be returned by `bestAliasMatch` for any
input text: the extracted text is normalized (punctuation becomes spaces)
before the substring test, while alias keys are only lowercased — and
lowercasing keeps the offending character.  Quantified over the alias
table and the built alias index exactly as the loader constructs it. -/
theorem punctuated_alias_never_matches (rows : List AliasRow) (raw : String)
    (a : AliasRow) (c : Char)
    (hc : c ∈ a.«alias».data)
    (hw : jsWordChar c = false) (hs : jsSpaceChar c = false) (hh : ¬ c = '-') :
    ∀ b, bestAliasMatch raw (buildAliasMap rows) = some b →
      b.«alias» ≠ jsToLower a.«alias» := by
  intro b hb heq
  have hinc : strIncludes (normalize raw) b.«alias» = true :=
    bestAliasMatch_includes raw (buildAliasMap rows) b hb
  have hcl : c ∈ (jsToLower a.«alias»).data :=
    List.mem_map.mpr ⟨c, hc, jsLowerChar_fixed c hw⟩
  rw [heq] at hinc
  have hmem : c ∈ (normalize raw).data := strIncludes_mem _ _ hinc c hcl
  rcases normalize_chars raw c hmem with h | h | h
  · rw [h] at hw; cases hw
  · subst h; exact absurd hs (by decide)
  · exact hh h

/-- Witness for C10: with alias keys "a/c unit" (slash-punctuated) and
"unit", the raw text "Replace A/C unit." matches "unit", never the
punctuated key. -/
theorem punctuated_alias_never_matches_witness :
    ('/' ∈ ("a/c unit" : String).data) ∧
    jsWordChar '/' = false ∧ jsSpaceChar '/' = false ∧ ¬ '/' = '-' ∧
    bestAliasMatch "Replace A/C unit." (buildAliasMap [⟨"a/c unit", "AC1"⟩, ⟨"unit", "U1"⟩])
      = some ⟨"unit", "U1"⟩ ∧
    (⟨"unit", "U1"⟩ : AliasBest).«alias» ≠ jsToLower "a/c unit" := by
  refine ⟨by decide, by decide, by decide, by decide, by decide, ?_⟩
  exact punctuated_alias_never_matches [⟨"a/c unit", "AC1"⟩, ⟨"unit", "U1"⟩]
    "Replace A/C unit." ⟨"a/c unit", "AC1"⟩ '/' (by decide) (by decide) (by decide)
    (by decide) ⟨"unit", "U1"⟩ (by decide)

end Estimate
